/-
# Verification of the dogtrace trace-and-bytecode resolution engine

Shallow embedding of the core of the repository:
  * `StorageLayoutParser` (packages/server/src/services/pdf_generator.ts):
    `buildPCToInstructionMap`, `buildSourceMapCache`, `getSourceLocation`,
    `getFunctionContext`, `decodeValue`;
  * `TransactionExecutor` (core executor file): `parseTrace`,
    `extractStorageChanges`, and the revert-reason decoding block of
    `executeWithTrace`.

JavaScript strings are modelled as `List Char`; JavaScript numbers that can
become `NaN` through `parseInt` are modelled as `Option Int` / `Option Nat`
(`none` = `NaN`); `BigInt(...)`, which can throw, is modelled as `Option Int`
(`none` = exception).
-/
import Mathlib

set_option linter.unusedVariables false

namespace Dogtrace

/-! ## JavaScript string and number primitives -/

/-- `s.split(sep)` for a one-character separator, on char lists.
JS: `"".split(sep) = [""]`, and a trailing separator yields a trailing
empty piece. -/
def splitList (sep : Char) : List Char → List (List Char)
  | [] => [[]]
  | c :: rest =>
    let r := splitList sep rest
    if c = sep then [] :: r
    else
      match r with
      | [] => [[c]]
      | h :: t => (c :: h) :: t

/-- The split never produces an empty list of pieces. -/
theorem splitList_ne_nil (sep : Char) (l : List Char) : splitList sep l ≠ [] := by
  cases l with
  | nil => simp [splitList]
  | cons c rest =>
    simp only [splitList]
    split
    · simp
    · cases splitList sep rest <;> simp

/-- `lines.join('\n')` on char lists. -/
def joinLines : List (List Char) → List Char
  | [] => []
  | [l] => l
  | l :: rest => l ++ '\n' :: joinLines rest

/-- Decimal digit value. -/
def digitVal (c : Char) : Option Nat :=
  if '0' ≤ c ∧ c ≤ '9' then some (c.toNat - '0'.toNat) else none

/-- Hexadecimal digit value (both cases). -/
def hexDigitVal (c : Char) : Option Nat :=
  if '0' ≤ c ∧ c ≤ '9' then some (c.toNat - '0'.toNat)
  else if 'a' ≤ c ∧ c ≤ 'f' then some (c.toNat - 'a'.toNat + 10)
  else if 'A' ≤ c ∧ c ≤ 'F' then some (c.toNat - 'A'.toNat + 10)
  else none

/-- Accumulate the leading digits of `l`, stopping at the first non-digit
(the way `parseInt` consumes its input). -/
def takeDigitsAux (base : Nat) (dv : Char → Option Nat) : List Char → Nat → Nat
  | [], acc => acc
  | c :: rest, acc =>
    match dv c with
    | some d => takeDigitsAux base dv rest (acc * base + d)
    | none => acc

/-- Is the first character a digit for `dv`? `parseInt` yields `NaN` iff not. -/
def hasLeadingDigit (dv : Char → Option Nat) : List Char → Bool
  | [] => false
  | c :: _ => (dv c).isSome

/-- JS `parseInt(s)` (radix 10) as used on source-map fields: optional sign,
then the leading run of decimal digits; `none` models `NaN`.  (The source-map
fields carry no whitespace and no `0x` prefix, so those `parseInt` quirks
cannot fire here.) -/
def parseIntDec (l : List Char) : Option Int :=
  match l with
  | '-' :: rest =>
    if hasLeadingDigit digitVal rest then some (-(takeDigitsAux 10 digitVal rest 0 : Int))
    else none
  | '+' :: rest =>
    if hasLeadingDigit digitVal rest then some ((takeDigitsAux 10 digitVal rest 0 : Int))
    else none
  | _ =>
    if hasLeadingDigit digitVal l then some ((takeDigitsAux 10 digitVal l 0 : Int))
    else none

/-- JS `parseInt(s, 16)`: an optional `0x`/`0X` prefix, then the leading run
of hex digits; `none` models `NaN`.  (The call sites pass non-negative
hex data, so the sign is not modelled.) -/
def parseIntHex (l : List Char) : Option Nat :=
  match l with
  | '0' :: 'x' :: rest =>
    if hasLeadingDigit hexDigitVal rest then some (takeDigitsAux 16 hexDigitVal rest 0) else none
  | '0' :: 'X' :: rest =>
    if hasLeadingDigit hexDigitVal rest then some (takeDigitsAux 16 hexDigitVal rest 0) else none
  | _ =>
    if hasLeadingDigit hexDigitVal l then some (takeDigitsAux 16 hexDigitVal l 0) else none

/-- All characters interpreted as digits, or `none` if any fails ([] → `none`);
this is the strict parse `BigInt` applies to the part after `0x`. -/
def allDigitsAux (base : Nat) (dv : Char → Option Nat) : List Char → Nat → Option Nat
  | [], acc => some acc
  | c :: rest, acc =>
    match dv c with
    | some d => allDigitsAux base dv rest (acc * base + d)
    | none => none

/-- Strict non-empty hex parse. -/
def allHexVal : List Char → Option Nat
  | [] => none
  | l => allDigitsAux 16 hexDigitVal l 0

/-- Strict non-empty decimal parse. -/
def allDecVal : List Char → Option Nat
  | [] => none
  | l => allDigitsAux 10 digitVal l 0

/-- JS `BigInt(string)`: `""` → 0, `0x`-prefixed strict hex, otherwise strict
decimal with optional leading minus; `none` models the thrown `SyntaxError`. -/
def jsBigInt (l : List Char) : Option Int :=
  match l with
  | [] => some 0
  | '0' :: 'x' :: rest => (allHexVal rest).map Int.ofNat
  | '0' :: 'X' :: rest => (allHexVal rest).map Int.ofNat
  | '-' :: rest => (allDecVal rest).map fun n => -(n : Int)
  | _ => (allDecVal l).map Int.ofNat

/-- JS whitespace test restricted to the ASCII whitespace that can occur in
the sources at hand. -/
def isWSJS (c : Char) : Bool := c = ' ' || c = '\t' || c = '\n' || c = '\r'

/-- `s.trim()` on char lists. -/
def trimL (l : List Char) : List Char :=
  ((l.dropWhile isWSJS).reverse.dropWhile isWSJS).reverse

/-- Is `p` a prefix of `l`? (JS `startsWith`.) -/
def prefixOfL : List Char → List Char → Bool
  | [], _ => true
  | _ :: _, [] => false
  | a :: as, b :: bs => a == b && prefixOfL as bs

/-- JS `l.includes(sub)` substring test. -/
def hasSubstrL (l sub : List Char) : Bool :=
  match l with
  | [] => sub.isEmpty
  | _ :: rest => prefixOfL sub l || hasSubstrL rest sub

/-- `s.slice(a, b)` on char lists (only called with `0 ≤ a ≤ b` here). -/
def jsSlice (l : List Char) (a b : Nat) : List Char := (l.drop a).take (b - a)

/-- `'0x'` stripping as written at the call sites
(`hex.startsWith('0x') ? hex.slice(2) : hex`). -/
def strip0x : List Char → List Char
  | '0' :: 'x' :: rest => rest
  | l => l

/-- `s.padStart(n, '0')` on char lists. -/
def padStart0 (l : List Char) (n : Nat) : List Char :=
  List.replicate (n - l.length) '0' ++ l

/-- `TransactionExecutor.padHex`: strip `0x`, left-pad with zeros to `n`
characters, re-prefix `0x`. -/
def padHex (s : String) (n : Nat) : String :=
  ⟨'0' :: 'x' :: padStart0 (strip0x s.data) n⟩

/-- Split a source text into its lines (`sourceCode.split('\n')`). -/
def splitLinesL (s : List Char) : List (List Char) := splitList '\n' s

/-! ## Source-map decompression (`StorageLayoutParser.buildSourceMapCache`)

One cache entry per `;`-separated position; empty fields inherit the previous
value.  The numeric fields are `Option Int` because `parseInt` of a
non-numeric field yields `NaN` (modelled `none`), which is stored and
inherited like any other value — the TypeScript body contains nothing that
can throw, so the surrounding `try`/`catch` never stops the loop. -/

/-- A decompressed source-map entry (the cached record has no jump field). -/
structure SMEntry where
  start : Option Int
  length : Option Int
  fileIndex : Option Int
deriving DecidableEq, Repr

/-- The running `lastStart`/`lastLength`/`lastFileIndex`/`lastJump` state. -/
structure SMState where
  lastStart : Option Int
  lastLength : Option Int
  lastFileIndex : Option Int
  lastJump : List Char
deriving DecidableEq, Repr

/-- Initial state: `lastStart = 0`, `lastLength = 0`, `lastFileIndex = 0`,
`lastJump = '-'`. -/
def smInit : SMState := ⟨some 0, some 0, some 0, ['-']⟩

/-- Process one `;`-separated entry: empty entry inherits everything;
otherwise each non-empty `:`-field updates the running value. -/
def smStep (st : SMState) (entry : List Char) : SMState × SMEntry :=
  if entry = [] then
    (st, ⟨st.lastStart, st.lastLength, st.lastFileIndex⟩)
  else
    let parts := splitList ':' entry
    let s1 :=
      match parts.get? 0 with
      | some f => if f = [] then st.lastStart else parseIntDec f
      | none => st.lastStart
    let s2 :=
      match parts.get? 1 with
      | some f => if f = [] then st.lastLength else parseIntDec f
      | none => st.lastLength
    let s3 :=
      match parts.get? 2 with
      | some f => if f = [] then st.lastFileIndex else parseIntDec f
      | none => st.lastFileIndex
    let s4 :=
      match parts.get? 3 with
      | some f => if f = [] then st.lastJump else f
      | none => st.lastJump
    (⟨s1, s2, s3, s4⟩, ⟨s1, s2, s3⟩)

/-- Decompress a list of `;`-separated entries, threading the state. -/
def buildCacheAux (st : SMState) : List (List Char) → List SMEntry
  | [] => []
  | e :: es =>
    let p := smStep st e
    p.2 :: buildCacheAux p.1 es

/-- The state after consuming a list of entries. -/
def stepAll (st : SMState) (es : List (List Char)) : SMState :=
  es.foldl (fun s e => (smStep s e).1) st

/-- `StorageLayoutParser.buildSourceMapCache`: empty source map gives the
empty cache, otherwise one entry per `;`-separated position (the TS `Map`
keyed by the dense position index is the list index here). -/
def buildSourceMapCache (sourceMap : String) : List SMEntry :=
  if sourceMap = "" then []
  else buildCacheAux smInit (splitList ';' sourceMap.data)

theorem buildCacheAux_append (st : SMState) (es1 es2 : List (List Char)) :
    buildCacheAux st (es1 ++ es2) =
      buildCacheAux st es1 ++ buildCacheAux (stepAll st es1) es2 := by
  induction es1 generalizing st with
  | nil => simp [buildCacheAux, stepAll]
  | cons e es ih =>
    simp only [List.cons_append, buildCacheAux, stepAll, List.foldl_cons, List.append_eq]
    rw [ih]
    rfl

theorem buildCacheAux_length (st : SMState) (es : List (List Char)) :
    (buildCacheAux st es).length = es.length := by
  induction es generalizing st with
  | nil => rfl
  | cons e es ih => simp [buildCacheAux, ih]

/-- The source map of the spec's §8 decompression test. -/
def smC6 : String := "10:5:0:-;;20:3:0:-"

/-- A source map whose second entry has a non-numeric `start` field. -/
def smBad : String := "10:5:0:-;x:5:0:-;20:3:0:-"

/-- **C6.** Source-map decompression produces one entry per `;`-separated
position, with empty fields inheriting the previous entry's value: the string
`"10:5:0:-;;20:3:0:-"` decompresses to exactly the entries
0 → (10,5,0), 1 → (10,5,0) (inherited) and 2 → (20,3,0). -/
theorem c6_source_map_decompression :
    buildSourceMapCache smC6 =
      [⟨some 10, some 5, some 0⟩, ⟨some 10, some 5, some 0⟩, ⟨some 20, some 3, some 0⟩] := by
  decide

/-- **C2, counterexample.** The claim says decompression stops at the first
unparseable entry, so the cache of `"10:5:0:-;x:5:0:-;20:3:0:-"` should
contain only the single entry before position 1; in fact nothing in the loop
ever throws — `parseInt('x')` is `NaN` (modelled `none`) — so all three
positions receive entries, including positions at and after the unparseable
one. -/
theorem c2_counterexample :
    buildSourceMapCache smBad =
        [⟨some 10, some 5, some 0⟩, ⟨none, some 5, some 0⟩, ⟨some 20, some 3, some 0⟩]
      ∧ (buildSourceMapCache smBad).length ≠ 1 := by
  decide

/-- **C2, amended.** Decompression never stops: every `;`-separated position
receives an entry (the cache length equals the number of positions), an
unparseable numeric field is stored as `NaN` (`none`) and inherited until
overwritten, and the entries decoded before any point are unaffected by what
follows — the cache of a concatenation splits as the cache of the first part
followed by the cache of the rest started from the carried state.  Prior
entries therefore remain valid. -/
theorem c2_amended :
    (∀ sm : String, sm ≠ "" →
        (buildSourceMapCache sm).length = (splitList ';' sm.data).length)
    ∧ (∀ (st : SMState) (es1 es2 : List (List Char)),
        buildCacheAux st (es1 ++ es2) =
          buildCacheAux st es1 ++ buildCacheAux (stepAll st es1) es2) := by
  constructor
  · intro sm hsm
    rw [buildSourceMapCache, if_neg hsm, buildCacheAux_length]
  · exact buildCacheAux_append

/-- Witness for `c2_amended` at concrete inputs. -/
theorem c2_amended_witness :
    (buildSourceMapCache smBad).length = (splitList ';' smBad.data).length
    ∧ buildCacheAux smInit ([['a']] ++ [['b']]) =
        buildCacheAux smInit [['a']] ++ buildCacheAux (stepAll smInit [['a']]) [['b']] :=
  ⟨c2_amended.1 smBad (by decide), c2_amended.2 smInit [['a']] [['b']]⟩

/-! ## Bytecode disassembly (`StorageLayoutParser.buildPCToInstructionMap`)

Walks the hex bytecode from offset 0; a PUSH1..PUSH32 opcode (0x60..0x7f)
consumes `opcode - 0x5f` operand bytes in addition to itself, every other
opcode consumes 1 byte.  The `Map` from byte offset (PC) to instruction index
is modelled as the association list of its insertions.  The loop condition is
`pc < code.length / 2` on the character count; `2 * pc < code.length` is the
same condition without the fractional division.  The recursion is fuelled by
the character count, which strictly bounds the number of loop iterations. -/

/-- Bytes consumed by one opcode: `1 + (opcode - 0x5f)` for PUSH1..PUSH32,
else 1; an unparseable opcode byte (`NaN`) compares false and consumes 1. -/
def opWidth (op : Option Nat) : Nat :=
  match op with
  | some v => if 0x60 ≤ v ∧ v ≤ 0x7f then 1 + (v - 0x5f) else 1
  | none => 1

theorem opWidth_pos (op : Option Nat) : 1 ≤ opWidth op := by
  cases op with
  | none => simp [opWidth]
  | some v =>
    simp only [opWidth]
    split <;> omega

/-- The disassembly loop. -/
def buildPCMapFuel : Nat → List Char → Nat → Nat → List (Nat × Nat)
  | 0, _, _, _ => []
  | fuel + 1, code, pc, idx =>
    if 2 * pc < code.length then
      let op := parseIntHex (jsSlice code (2 * pc) (2 * pc + 2))
      (pc, idx) :: buildPCMapFuel fuel code (pc + opWidth op) (idx + 1)
    else []

/-- `StorageLayoutParser.buildPCToInstructionMap`. -/
def buildPCToInstructionMap (bytecode : String) : List (Nat × Nat) :=
  let code := strip0x bytecode.data
  buildPCMapFuel code.length code 0 0

theorem buildPCMapFuel_snd (fuel : Nat) :
    ∀ (code : List Char) (pc idx n : Nat) (e : Nat × Nat),
      (buildPCMapFuel fuel code pc idx).get? n = some e → e.2 = idx + n := by
  induction fuel with
  | zero => intro code pc idx n e h; simp [buildPCMapFuel] at h
  | succ fuel ih =>
    intro code pc idx n e h
    simp only [buildPCMapFuel] at h
    by_cases hg : 2 * pc < code.length
    · rw [if_pos hg] at h
      cases n with
      | zero =>
        simp only [List.get?] at h
        cases h
        rfl
      | succ n =>
        simp only [List.get?] at h
        have := ih code _ (idx + 1) n e h
        omega
    · rw [if_neg hg] at h
      simp at h

/-- The spec's §8 disassembly test bytecode: `PUSH1 0x01, PUSH2 0x0203, STOP`. -/
def bcC5 : String := "600161020300"

/-- **C5.** `buildPCToInstructionMap` walks the bytecode from offset 0,
consuming 1 byte per opcode plus `opcode - 0x5f` operand bytes for the PUSH
range `0x60..0x7f`, and assigns instruction indices that increase by exactly
1 per instruction: for `PUSH1 0x01, PUSH2 0x0203, STOP` the table is exactly
`{0 ↦ 0, 2 ↦ 1, 5 ↦ 2}`, and in general the `n`-th recorded instruction
carries index `n`. -/
theorem c5_pc_to_instruction_map :
    buildPCToInstructionMap bcC5 = [(0, 0), (2, 1), (5, 2)]
    ∧ ∀ (bc : String) (n : Nat) (e : Nat × Nat),
        (buildPCToInstructionMap bc).get? n = some e → e.2 = n := by
  refine ⟨by decide, ?_⟩
  intro bc n e h
  have := buildPCMapFuel_snd _ _ _ _ _ _ h
  omega

/-- Witness for `c5_pc_to_instruction_map` at a concrete table entry. -/
theorem c5_pc_to_instruction_map_witness : (((2, 1) : Nat × Nat)).2 = 1 :=
  c5_pc_to_instruction_map.2 bcC5 1 (2, 1) (by decide)

/-! ## PC → source location (`StorageLayoutParser.getSourceLocation`)

Resolution: PC → instruction index (through the disassembly table) →
source-map entry → (line, column, snippet).  An entry with `fileIndex ≠ 0`
(compiler-generated code) triggers a backward search over the 20 preceding
instruction indices for a `fileIndex = 0` entry; a missing entry triggers a
±5 neighbour search.  The two `for` loops over fixed offset ranges are
modelled as folds over the literal offset lists. -/

/-- A resolved source position (1-based line; the column is an `Int` because
the source computes `start - currentOffset + 1` on possibly-negative data). -/
structure SourceLocation where
  line : Nat
  column : Int
  snippet : String
deriving DecidableEq, Repr

/-- The byte-offset → (line, column) scan over cumulative line lengths
(`+1` per line for the newline).  Returns `none` when the loop never breaks
(offset beyond the text, or `NaN` handled by the caller). -/
def findLineColAux : List (List Char) → Int → Int → Nat → Option (Nat × Int)
  | [], _, _, _ => none
  | line :: rest, start, currentOffset, i =>
    let lineLength : Int := line.length + 1
    if currentOffset + lineLength > start then some (i + 1, start - currentOffset + 1)
    else findLineColAux rest start (currentOffset + lineLength) (i + 1)

/-- Offset → full location: line and column default to 1 when the scan never
breaks; a `NaN` start (`none`) makes every comparison false, so the defaults
are returned.  Snippet is the trimmed resolved line. -/
def resolveOffset (src : String) (start : Option Int) : SourceLocation :=
  let lines := splitLinesL src.data
  let lc :=
    match start with
    | some s => (findLineColAux lines s 0 0).getD (1, 1)
    | none => (1, 1)
  ⟨lc.1, lc.2, ⟨trimL ((lines.get? (lc.1 - 1)).getD [])⟩⟩

/-- The neighbour-fallback variant: same line scan, but the column is the
literal 1 of the source. -/
def resolveOffsetNb (src : String) (start : Option Int) : SourceLocation :=
  let lines := splitLinesL src.data
  let ln :=
    match start with
    | some s => ((findLineColAux lines s 0 0).getD (1, 1)).1
    | none => 1
  ⟨ln, 1, ⟨trimL ((lines.get? (ln - 1)).getD [])⟩⟩

/-- The backward search over the given offsets (the source iterates
`offset = 1..20`, breaking when `instructionIndex - offset < 0`). -/
def searchBackList (cache : List SMEntry) (src : String) (idx : Nat) :
    List Nat → Option SourceLocation
  | [] => none
  | off :: rest =>
    if idx < off then none
    else
      match cache.get? (idx - off) with
      | some prev =>
        if prev.fileIndex = some 0 then some (resolveOffset src prev.start)
        else searchBackList cache src idx rest
      | none => searchBackList cache src idx rest

/-- The neighbour offsets `-5..5` of the tolerance fallback. -/
def nbOffsets : List Int := [-5, -4, -3, -2, -1, 0, 1, 2, 3, 4, 5]

/-- The neighbour search (a negative index is absent from the map). -/
def searchNearbyList (cache : List SMEntry) (src : String) (idx : Nat) :
    List Int → Option SourceLocation
  | [] => none
  | off :: rest =>
    let tgt : Int := (idx : Int) + off
    if 0 ≤ tgt then
      match cache.get? tgt.toNat with
      | some e => some (resolveOffsetNb src e.start)
      | none => searchNearbyList cache src idx rest
    else searchNearbyList cache src idx rest

/-- `StorageLayoutParser.getSourceLocation` (the instance fields
`sourceCode`, `sourceMap`, `bytecode` are explicit arguments). -/
def getSourceLocation (sourceCode sourceMap bytecode : String) (pc : Nat) :
    Option SourceLocation :=
  if sourceMap = "" ∨ sourceCode = "" then none
  else
    match List.lookup pc (buildPCToInstructionMap bytecode) with
    | none => none
    | some instructionIndex =>
      let cache := buildSourceMapCache sourceMap
      match cache.get? instructionIndex with
      | some position =>
        if position.fileIndex ≠ some 0 then
          searchBackList cache sourceCode instructionIndex (List.range' 1 20)
        else some (resolveOffset sourceCode position.start)
      | none => searchNearbyList cache sourceCode instructionIndex nbOffsets

theorem searchBackList_spec (cache : List SMEntry) (src : String) (idx : Nat) :
    ∀ (offs : List Nat) (loc : SourceLocation),
      (∀ o ∈ offs, 1 ≤ o ∧ o ≤ 20) →
      searchBackList cache src idx offs = some loc →
      ∃ i e, i < idx ∧ idx ≤ i + 20 ∧ cache.get? i = some e ∧ e.fileIndex = some 0 ∧
        loc = resolveOffset src e.start := by
  intro offs
  induction offs with
  | nil => intro loc _ hc; simp [searchBackList] at hc
  | cons off rest ih =>
    intro loc hb hc
    simp only [searchBackList] at hc
    by_cases hio : idx < off
    · rw [if_pos hio] at hc; simp at hc
    · rw [if_neg hio] at hc
      have hoff := hb off (List.mem_cons_self off rest)
      cases hg : cache.get? (idx - off) with
      | some prev =>
        rw [hg] at hc
        have hc' : (if prev.fileIndex = some 0 then some (resolveOffset src prev.start)
            else searchBackList cache src idx rest) = some loc := hc
        by_cases hfi : prev.fileIndex = some 0
        · rw [if_pos hfi] at hc'
          refine ⟨idx - off, prev, by omega, by omega, hg, hfi, ?_⟩
          exact (Option.some_injective _ hc').symm
        · rw [if_neg hfi] at hc'
          exact ih loc (fun o ho => hb o (List.mem_cons_of_mem off ho)) hc'
      | none =>
        rw [hg] at hc
        have hc' : searchBackList cache src idx rest = some loc := hc
        exact ih loc (fun o ho => hb o (List.mem_cons_of_mem off ho)) hc'

/-- Source text used by the location tests. -/
def srcC1 : String := "hello\nworld"

/-- A one-entry source map whose only entry is compiler-generated
(`fileIndex = 1`). -/
def smSynth : String := "0:5:1:-"

/-- A two-entry source map: an authored entry followed by a
compiler-generated one. -/
def smMix : String := "0:5:0:-;1:2:1:-"

/-- Two-instruction bytecode `PUSH1 0x01, STOP`. -/
def bcTwo : String := "600100"

/-- **C1, counterexample.** The claim says a location is never derived from a
source-map entry with nonzero `fileIndex` — on every return path, including
the ±5 neighbour fallback.  But the neighbour fallback does not inspect
`fileIndex`: for `pc = 2` (instruction index 1, beyond the one-entry map of
`"0:5:1:-"`) the resolver returns the location of the `fileIndex = 1` entry
at index 0, although every entry of that map has nonzero `fileIndex`. -/
theorem c1_counterexample :
    getSourceLocation srcC1 smSynth bcC5 2 = some ⟨1, 1, "hello"⟩
    ∧ ∀ e ∈ buildSourceMapCache smSynth, e.fileIndex ≠ some 0 := by
  decide

/-- **C1, amended.** On the return paths that go through an existing
source-map entry, the invariant holds: whenever the instruction's entry has
`fileIndex ≠ 0`, the resolver either returns `none` or returns the location
resolved from an entry with `fileIndex = 0` within the 20 preceding
instruction indices.  (The ±5 neighbour fallback, taken only when the
instruction has no entry at all, does not filter on `fileIndex` — see the
counterexample.) -/
theorem c1_nonzero_file_index (src sm bc : String) (pc idx : Nat) (e : SMEntry)
    (hsm : sm ≠ "") (hsrc : src ≠ "")
    (hpc : List.lookup pc (buildPCToInstructionMap bc) = some idx)
    (hget : (buildSourceMapCache sm).get? idx = some e)
    (hfi : e.fileIndex ≠ some 0) :
    getSourceLocation src sm bc pc = none ∨
      ∃ i e', i < idx ∧ idx ≤ i + 20 ∧ (buildSourceMapCache sm).get? i = some e' ∧
        e'.fileIndex = some 0 ∧
        getSourceLocation src sm bc pc = some (resolveOffset src e'.start) := by
  have hred : getSourceLocation src sm bc pc =
      searchBackList (buildSourceMapCache sm) src idx (List.range' 1 20) := by
    unfold getSourceLocation
    rw [if_neg (by simp [hsm, hsrc]), hpc]
    simp only [hget, if_pos hfi]
  cases hsb : searchBackList (buildSourceMapCache sm) src idx (List.range' 1 20) with
  | none => exact Or.inl (hred.trans hsb)
  | some loc =>
    obtain ⟨i, e', hi, hb, hgete, hfie, hloc⟩ :=
      searchBackList_spec (buildSourceMapCache sm) src idx (List.range' 1 20) loc
        (by decide) hsb
    exact Or.inr ⟨i, e', hi, hb, hgete, hfie, by rw [hred, hsb, hloc]⟩

/-- Witness for `c1_nonzero_file_index`: instruction index 1 of `smMix` is
compiler-generated, and the backward search substitutes the authored entry at
index 0. -/
theorem c1_nonzero_file_index_witness :
    getSourceLocation srcC1 smMix bcTwo 2 = none ∨
      ∃ i e', i < 1 ∧ 1 ≤ i + 20 ∧ (buildSourceMapCache smMix).get? i = some e' ∧
        e'.fileIndex = some 0 ∧
        getSourceLocation srcC1 smMix bcTwo 2 = some (resolveOffset srcC1 e'.start) :=
  c1_nonzero_file_index srcC1 smMix bcTwo 2 1 ⟨some 1, some 2, some 1⟩
    (by decide) (by decide) (by decide) (by decide) (by decide)

/-! ## Trace normalisation (`TransactionExecutor.parseTrace`)

One `ExecutionTrace` per raw `structLog`, in order.  The gas cost of a step
is `lastGas - gas` when the previous step's remaining gas was positive,
otherwise the record's own `gasCost` field (or 0).  An `SSTORE` with at least
two stack entries gets its key/value captured (padded to 32-byte hex) as
`storage`.  Missing raw fields (`stack`, `memory`, `depth`, `gasCost`) are
`Option`s defaulted exactly as the `||`-defaults of the source. -/

/-- A raw `debug_traceTransaction` step record. -/
structure StructLog where
  pc : Nat
  op : String
  gas : Int
  gasCost : Option Int
  stack : Option (List String)
  memory : Option (List String)
  depth : Option Nat
deriving DecidableEq, Repr

/-- A normalised execution step (stack bottom → top, top = last). -/
structure ExecutionTrace where
  step : Nat
  pc : Nat
  opcode : String
  gas : Int
  gasCost : Int
  stack : List String
  memory : String
  storage : Option (String × String)
  depth : Nat
deriving DecidableEq, Repr

/-- Build one normalised step from a raw record, given the step index and the
previous record's remaining gas (`lastGas`, initially 0). -/
def mkTrace (i : Nat) (lastGas : Int) (log : StructLog) : ExecutionTrace :=
  let stack := log.stack.getD []
  { step := i
    pc := log.pc
    opcode := log.op
    gas := log.gas
    gasCost := if 0 < lastGas then lastGas - log.gas else log.gasCost.getD 0
    stack := stack
    memory :=
      match log.memory with
      | some ws => ⟨'0' :: 'x' :: (ws.map String.data).flatten⟩
      | none => "0x"
    storage :=
      if log.op = "SSTORE" ∧ log.stack.isSome ∧ 2 ≤ stack.length then
        some (padHex (stack.getLast?.getD "") 64,
              padHex ((stack.get? (stack.length - 2)).getD "") 64)
      else none
    depth := log.depth.getD 0 }

/-- The normalisation loop, threading the step index and `lastGas`. -/
def parseTraceAux : List StructLog → Nat → Int → List ExecutionTrace
  | [], _, _ => []
  | log :: rest, i, lastGas => mkTrace i lastGas log :: parseTraceAux rest (i + 1) log.gas

/-- `TransactionExecutor.parseTrace` on the `structLogs` array. -/
def parseTrace (structLogs : List StructLog) : List ExecutionTrace :=
  parseTraceAux structLogs 0 0

/-! ## Storage diffing (`TransactionExecutor.extractStorageChanges`)

Pass 1 (`forEach`): every `SLOAD` with a non-empty slot operand records, under
the padded slot key, the value on the stack top of the NEXT step (if that
step exists, has a non-empty stack and a non-empty top).  The `forEach` with
its `traces[index + 1]` lookahead is modelled as a fold over the list of
(step, next-step?) pairs.  Pass 2: every step carrying a `storage` write
becomes a `StorageChange` whose `oldValue` is the recorded read (default 32
zero bytes). -/

/-- `'0x' + '0'.repeat(64)`. -/
def zeros64hex : String := ⟨'0' :: 'x' :: List.replicate 64 '0'⟩

/-- A storage diff record.  `slotNumber` is `Option` because `parseInt` can
produce `NaN`; the decimal fields are `Option` because `BigInt` of a
non-numeric string throws in the source (never hit on tracer-shaped data). -/
structure StorageChange where
  slot : String
  slotNumber : Option Nat
  oldValue : String
  newValue : String
  oldValueDecimal : Option String
  newValueDecimal : Option String
  step : Nat
deriving DecidableEq, Repr

/-- The `SLOAD` slot operand: the stack top (`stack[stack.length - 1]`). -/
def slotValOf (t : ExecutionTrace) : String := t.stack.getLast?.getD ""

/-- The loaded value: the NEXT step's stack top. -/
def loadValOf : Option ExecutionTrace → String
  | some nt => nt.stack.getLast?.getD ""
  | none => ""

/-- All the conditions under which the pass-1 loop records a read: the step
is an `SLOAD` with a stack, the slot operand is truthy, the next step exists
with a non-empty stack, and the loaded value is truthy. -/
def recordsB (t : ExecutionTrace) (next : Option ExecutionTrace) : Bool :=
  decide (t.opcode = "SLOAD") && decide (1 ≤ t.stack.length) && decide (slotValOf t ≠ "") &&
    match next with
    | some nt => decide (0 < nt.stack.length) && decide (loadValOf next ≠ "")
    | none => false

/-- One pass-1 iteration: `storageReads.set(padHex(slot, 64), loadedValue)`
when the conditions hold, else no change. -/
def readsStep (m : String → Option String) (t : ExecutionTrace)
    (next : Option ExecutionTrace) : String → Option String :=
  if recordsB t next then
    fun k => if k = padHex (slotValOf t) 64 then some (loadValOf next) else m k
  else m

/-- The (step, next-step?) pairs visited by the `forEach` lookahead. -/
def pairsList : List ExecutionTrace → List (ExecutionTrace × Option ExecutionTrace)
  | [] => []
  | [t] => [(t, none)]
  | t :: t' :: rest => (t, some t') :: pairsList (t' :: rest)

/-- Fold pass-1 over a pair list. -/
def foldReads (ps : List (ExecutionTrace × Option ExecutionTrace))
    (m : String → Option String) : String → Option String :=
  ps.foldl (fun m p => readsStep m p.1 p.2) m

/-- The pass-1 `storageReads` map of a trace. -/
def buildReads (traces : List ExecutionTrace) : String → Option String :=
  foldReads (pairsList traces) (fun _ => none)

/-- Pass 2 on one write-carrying step (the recorded values are never the
empty string, so `getD` models the `|| default`). -/
def mkChange (m : String → Option String) (t : ExecutionTrace) : StorageChange :=
  let slot := (t.storage.getD ("", "")).1
  let newValue := (t.storage.getD ("", "")).2
  let oldValue := (m slot).getD zeros64hex
  { slot := slot
    slotNumber := parseIntHex slot.data
    oldValue := oldValue
    newValue := newValue
    oldValueDecimal := (jsBigInt oldValue.data).map fun v => toString v
    newValueDecimal := (jsBigInt newValue.data).map fun v => toString v
    step := t.step }

/-- `TransactionExecutor.extractStorageChanges`. -/
def extractStorageChanges (traces : List ExecutionTrace) : List StorageChange :=
  let m := buildReads traces
  (traces.filter fun t => t.storage.isSome).map (mkChange m)

theorem readsStep_of_records (m : String → Option String) (t : ExecutionTrace)
    (next : Option ExecutionTrace) (s : String)
    (hr : recordsB t next = true) (hs : padHex (slotValOf t) 64 = s) :
    readsStep m t next s = some (loadValOf next) := by
  simp [readsStep, hr, hs.symm]

theorem readsStep_of_not (m : String → Option String) (t : ExecutionTrace)
    (next : Option ExecutionTrace) (s : String)
    (h : ¬(recordsB t next = true ∧ padHex (slotValOf t) 64 = s)) :
    readsStep m t next s = m s := by
  by_cases hr : recordsB t next = true
  · have hs : s ≠ padHex (slotValOf t) 64 := fun he => h ⟨hr, he.symm⟩
    simp [readsStep, hr, hs]
  · simp [readsStep, hr]

theorem foldReads_of_no_records (s : String) :
    ∀ (ps : List (ExecutionTrace × Option ExecutionTrace)) (m : String → Option String),
      (∀ p ∈ ps, ¬(recordsB p.1 p.2 = true ∧ padHex (slotValOf p.1) 64 = s)) →
      foldReads ps m s = m s := by
  intro ps
  induction ps with
  | nil => intro m _; rfl
  | cons p ps ih =>
    intro m h
    have h1 := h p (List.mem_cons_self p ps)
    have : foldReads (p :: ps) m = foldReads ps (readsStep m p.1 p.2) := rfl
    rw [this, ih _ (fun q hq => h q (List.mem_cons_of_mem p hq)),
      readsStep_of_not m p.1 p.2 s h1]

theorem pairsList_append (l1 l2 : List ExecutionTrace) (h : l2 ≠ []) :
    ∃ ps1, pairsList (l1 ++ l2) = ps1 ++ pairsList l2 := by
  induction l1 with
  | nil => exact ⟨[], rfl⟩
  | cons x l1 ih =>
    obtain ⟨ps1, hps⟩ := ih
    cases l1 with
    | nil =>
      cases l2 with
      | nil => exact absurd rfl h
      | cons z rest => exact ⟨[(x, some z)], rfl⟩
    | cons y l1' =>
      exact ⟨(x, some y) :: ps1, by simpa [pairsList] using hps⟩

/-- The pass-1 map at a slot whose LAST qualifying `SLOAD` pair is
`(t, some t')`: the recorded value is that pair's loaded value, whatever came
before. -/
theorem buildReads_last (l1 l2 : List ExecutionTrace) (t t' : ExecutionTrace) (s : String)
    (hrec : recordsB t (some t') = true) (hslot : padHex (slotValOf t) 64 = s)
    (hafter : ∀ p ∈ pairsList (t' :: l2),
      ¬(recordsB p.1 p.2 = true ∧ padHex (slotValOf p.1) 64 = s)) :
    buildReads (l1 ++ t :: t' :: l2) s = some (loadValOf (some t')) := by
  obtain ⟨ps1, hps⟩ := pairsList_append l1 (t :: t' :: l2) (by simp)
  have hpair : pairsList (t :: t' :: l2) = (t, some t') :: pairsList (t' :: l2) := rfl
  rw [buildReads, hps, hpair]
  rw [foldReads, List.foldl_append]
  have : List.foldl (fun m p => readsStep m p.1 p.2)
        (List.foldl (fun m p => readsStep m p.1 p.2) (fun _ => none) ps1)
        ((t, some t') :: pairsList (t' :: l2)) =
      foldReads (pairsList (t' :: l2))
        (readsStep (foldReads ps1 (fun _ => none)) t (some t')) := rfl
  rw [this, foldReads_of_no_records s _ _ hafter,
    readsStep_of_records _ t (some t') s hrec hslot]

/-- Every emitted change's `oldValue` is a function of its slot through the
single pass-1 map. -/
theorem mem_extractStorageChanges (tr : List ExecutionTrace) (c : StorageChange)
    (hc : c ∈ extractStorageChanges tr) :
    ∃ t0, t0 ∈ tr ∧ t0.storage.isSome ∧ c = mkChange (buildReads tr) t0 := by
  simp only [extractStorageChanges, List.mem_map, List.mem_filter] at hc
  obtain ⟨t0, ⟨ht0, hs0⟩, hc0⟩ := hc
  exact ⟨t0, ht0, by simpa using hs0, hc0.symm⟩

theorem mkChange_oldValue (m : String → Option String) (t : ExecutionTrace) :
    (mkChange m t).oldValue = (m (mkChange m t).slot).getD zeros64hex := rfl

theorem mkChange_slot (m : String → Option String) (t : ExecutionTrace) (s w : String)
    (h : t.storage = some (s, w)) : (mkChange m t).slot = s := by
  simp [mkChange, h]

theorem mkChange_newValue (m : String → Option String) (t : ExecutionTrace) (s w : String)
    (h : t.storage = some (s, w)) : (mkChange m t).newValue = w := by
  simp [mkChange, h]

/-- The 32-byte slot key `0x00…01`. -/
def slot64 : String := ⟨'0' :: 'x' :: (List.replicate 62 '0' ++ ['0', '1'])⟩

/-- The 32-byte value `0x00…09`. -/
def val09 : String := ⟨'0' :: 'x' :: (List.replicate 62 '0' ++ ['0', '9'])⟩

/-- The 32-byte value `0x00…07`. -/
def val07 : String := ⟨'0' :: 'x' :: (List.replicate 62 '0' ++ ['0', '7'])⟩

/-- An `SLOAD` of raw slot operand `0x01`. -/
def tSload : ExecutionTrace :=
  { step := 0, pc := 0, opcode := "SLOAD", gas := 100, gasCost := 0,
    stack := ["0x01"], memory := "0x", storage := none, depth := 1 }

/-- The step after the load; its stack top `0x07` is the loaded value. -/
def tNext : ExecutionTrace :=
  { step := 1, pc := 1, opcode := "POP", gas := 99, gasCost := 1,
    stack := ["0x07"], memory := "0x", storage := none, depth := 1 }

/-- An `SSTORE` writing `0x00…09` to slot `0x00…01` (as normalised by
`parseTrace`). -/
def tSstore : ExecutionTrace :=
  { step := 2, pc := 2, opcode := "SSTORE", gas := 98, gasCost := 1,
    stack := ["0x09", "0x01"], memory := "0x", storage := some (slot64, val09), depth := 1 }

/-- **C10.** The slot→value read map is built over the whole trace before any
write is processed, so (i) whenever the pair `(t, t')` is the LAST qualifying
`SLOAD` of slot `s` anywhere in the trace — no pair from `t'` on records `s`
— every emitted change for slot `s` carries `t'`'s stack top as `oldValue`,
wherever the write sits relative to the load; and (ii) any two changes of
the same slot in one trace carry the identical `oldValue`. -/
theorem c10_last_read_wins (l1 l2 : List ExecutionTrace) (t t' : ExecutionTrace) (s : String)
    (hrec : recordsB t (some t') = true) (hslot : padHex (slotValOf t) 64 = s)
    (hafter : ∀ p ∈ pairsList (t' :: l2),
      ¬(recordsB p.1 p.2 = true ∧ padHex (slotValOf p.1) 64 = s)) :
    (∀ c ∈ extractStorageChanges (l1 ++ t :: t' :: l2),
        c.slot = s → c.oldValue = loadValOf (some t'))
    ∧ ∀ (tr : List ExecutionTrace) (c1 c2 : StorageChange),
        c1 ∈ extractStorageChanges tr → c2 ∈ extractStorageChanges tr →
        c1.slot = c2.slot → c1.oldValue = c2.oldValue := by
  constructor
  · intro c hc hcs
    obtain ⟨t0, _, _, hc0⟩ := mem_extractStorageChanges _ c hc
    subst hc0
    rw [mkChange_oldValue, hcs, buildReads_last l1 l2 t t' s hrec hslot hafter]
    rfl
  · intro tr c1 c2 h1 h2 hs
    obtain ⟨t1, _, _, hc1⟩ := mem_extractStorageChanges _ c1 h1
    obtain ⟨t2, _, _, hc2⟩ := mem_extractStorageChanges _ c2 h2
    subst hc1; subst hc2
    rw [mkChange_oldValue, mkChange_oldValue, hs]

/-- The concrete change produced for `[tSload, tNext, tSstore]`. -/
def chW : StorageChange :=
  { slot := slot64, slotNumber := some 1, oldValue := "0x07", newValue := val09,
    oldValueDecimal := some "7", newValueDecimal := some "9", step := 2 }

/-- Witness for `c10_last_read_wins` on a concrete three-step trace. -/
theorem c10_last_read_wins_witness : chW.oldValue = loadValOf (some tNext) :=
  (c10_last_read_wins [] [tSstore] tSload tNext slot64 (by decide) (by decide)
    (by decide)).1 chW (by decide) (by decide)

/-- A raw step record with the fields the C3 instance needs. -/
def rlog (p : Nat) (o : String) (g : Int) (st : List String) : StructLog :=
  { pc := p, op := o, gas := g, gasCost := some 3, stack := some st,
    memory := none, depth := some 1 }

/-- The spec's §8 storage-diff trace: step 4 is an `SLOAD` of slot `0x01`,
step 5's stack top is `0x00…07`, step 9 is an `SSTORE` of `0x09` to the same
slot. -/
def rawC3 : List StructLog :=
  [rlog 0 ("PUSH1") 100 [],
   rlog 2 ("PUSH1") 97 ["0x01"],
   rlog 4 ("POP") 94 ["0x01", "0x02"],
   rlog 5 ("PUSH1") 91 ["0x01"],
   rlog 7 ("SLOAD") 88 ["0x01"],
   rlog 8 ("PUSH1") 85 [val07],
   rlog 10 ("POP") 82 [val07, "0x09"],
   rlog 11 ("PUSH1") 79 ["0x09"],
   rlog 13 ("PUSH1") 76 ["0x09", "0x01"],
   rlog 15 ("SSTORE") 73 ["0x09", "0x01"]]

/-- Counterexample trace for C3: two `SLOAD`s of slot `0x01` load `0x07`
(steps 0/1) and then `0x05` (steps 2/3), before the `SSTORE` at step 4. -/
def u0 : ExecutionTrace :=
  { step := 0, pc := 0, opcode := "SLOAD", gas := 100, gasCost := 0,
    stack := ["0x01"], memory := "0x", storage := none, depth := 1 }

/-- Step 1 of the C3 counterexample trace: stack top `0x07`. -/
def u1 : ExecutionTrace :=
  { step := 1, pc := 1, opcode := "POP", gas := 99, gasCost := 1,
    stack := ["0x07"], memory := "0x", storage := none, depth := 1 }

/-- Step 2 of the C3 counterexample trace: second `SLOAD` of slot `0x01`. -/
def u2 : ExecutionTrace :=
  { step := 2, pc := 2, opcode := "SLOAD", gas := 98, gasCost := 1,
    stack := ["0x01"], memory := "0x", storage := none, depth := 1 }

/-- Step 3 of the C3 counterexample trace: stack top `0x05`. -/
def u3 : ExecutionTrace :=
  { step := 3, pc := 3, opcode := "POP", gas := 97, gasCost := 1,
    stack := ["0x05"], memory := "0x", storage := none, depth := 1 }

/-- Step 4 of the C3 counterexample trace: `SSTORE` of `0x00…09` to the same
slot. -/
def u4 : ExecutionTrace :=
  { step := 4, pc := 4, opcode := "SSTORE", gas := 96, gasCost := 1,
    stack := ["0x09", "0x01"], memory := "0x", storage := some (slot64, val09), depth := 1 }

/-- The C3 counterexample trace. -/
def ctrace3 : List ExecutionTrace := [u0, u1, u2, u3, u4]

/-- **C3, counterexample.** The claim quantifies over EVERY `SLOAD` step `i`
whose loaded value `v` sits on step `i+1`'s stack top and demands
`oldValue = v` for a later `SSTORE` of the same slot.  In `ctrace3` step 0
is an `SLOAD` of slot `0x01` with loaded value `0x07`, step 4 an `SSTORE`
of slot `0x00…01`; yet the emitted change's `oldValue` is `0x05` (the value
loaded by the LATER `SLOAD` at step 2), not `0x07`. -/
theorem c3_counterexample :
    ((ctrace3.get? 0).map fun t => t.opcode) = some ("SLOAD")
    ∧ ((ctrace3.get? 0).map fun t => t.stack.getLast?.getD "") = some ("0x01")
    ∧ padHex ("0x01") 64 = slot64
    ∧ ((ctrace3.get? 1).map fun t => t.stack.getLast?.getD "") = some ("0x07")
    ∧ ((ctrace3.get? 4).map fun t => t.storage) = some (some (slot64, val09))
    ∧ ((extractStorageChanges ctrace3).map fun c => c.oldValue) = ["0x05"]
    ∧ ("0x05" : String) ≠ "0x07" := by
  decide

/-- **C3, amended.** (i) When the qualifying `SLOAD` at steps `(t, t')` is
the LAST `SLOAD` of slot `s` in the normalised trace, every later-or-earlier
`SSTORE` step `tj` (at position `j`, writing `w` to `s`) yields a
`StorageChange` with slot `s`, `oldValue` = the value on `t'`'s stack top,
`newValue` `w` and step index `j`.  (ii) `oldValue` defaults to 32 zero bytes
when no `SLOAD` of that slot is recorded anywhere in the trace.  (iii) The
spec's concrete instance holds: step 4 `SLOAD` of `0x…01` loading `0x…07`,
step 9 `SSTORE` of `0x…09` gives exactly
`{slot 0x…01, old 0x…07, new 0x…09, stepIndex 9}`. -/
theorem c3_storage_change (l1 l2 : List ExecutionTrace) (t t' tj : ExecutionTrace)
    (s w : String) (j : Nat)
    (hrec : recordsB t (some t') = true) (hslot : padHex (slotValOf t) 64 = s)
    (hafter : ∀ p ∈ pairsList (t' :: l2),
      ¬(recordsB p.1 p.2 = true ∧ padHex (slotValOf p.1) 64 = s))
    (hj : (l1 ++ t :: t' :: l2).get? j = some tj)
    (hstor : tj.storage = some (s, w)) (hstep : tj.step = j) :
    (∃ c ∈ extractStorageChanges (l1 ++ t :: t' :: l2),
        c.slot = s ∧ c.oldValue = loadValOf (some t') ∧ c.newValue = w ∧ c.step = j)
    ∧ (∀ (tr : List ExecutionTrace) (c : StorageChange), c ∈ extractStorageChanges tr →
        (∀ p ∈ pairsList tr, ¬(recordsB p.1 p.2 = true ∧ padHex (slotValOf p.1) 64 = c.slot)) →
        c.oldValue = zeros64hex)
    ∧ ((extractStorageChanges (parseTrace rawC3)).map fun c =>
        (c.slot, c.oldValue, c.newValue, c.step)) = [(slot64, val07, val09, 9)] := by
  refine ⟨?_, ?_, by decide⟩
  · have htj : tj ∈ l1 ++ t :: t' :: l2 := List.get?_mem hj
    have hfil : tj ∈ (l1 ++ t :: t' :: l2).filter fun t0 => t0.storage.isSome :=
      List.mem_filter.mpr ⟨htj, by simp [hstor]⟩
    refine ⟨mkChange (buildReads (l1 ++ t :: t' :: l2)) tj,
      List.mem_map_of_mem _ hfil, mkChange_slot _ _ _ _ hstor, ?_,
      mkChange_newValue _ _ _ _ hstor, hstep⟩
    rw [mkChange_oldValue, mkChange_slot _ _ _ _ hstor,
      buildReads_last l1 l2 t t' s hrec hslot hafter]
    rfl
  · intro tr c hc hnone
    obtain ⟨t0, _, _, hc0⟩ := mem_extractStorageChanges _ c hc
    subst hc0
    rw [mkChange_oldValue]
    have h0 : buildReads tr (mkChange (buildReads tr) t0).slot = none :=
      foldReads_of_no_records _ (pairsList tr) (fun _ => none) hnone
    rw [h0]
    rfl

/-- Witness for `c3_storage_change` on the concrete three-step trace. -/
theorem c3_storage_change_witness :
    ∃ c ∈ extractStorageChanges ([] ++ tSload :: tNext :: [tSstore]),
      c.slot = slot64 ∧ c.oldValue = loadValOf (some tNext) ∧ c.newValue = val09 ∧ c.step = 2 :=
  (c3_storage_change [] [tSstore] tSload tNext tSstore slot64 val09 2
    (by decide) (by decide) (by decide) (by decide) (by decide) (by decide)).1

/-! ## Gas-cost backfilling (C7) -/

/-- The `lastGas` value in force when the normalisation loop reaches
position `n`, starting from `g`: the previous record's remaining gas. -/
def prevGas (g : Int) (logs : List StructLog) : Nat → Int
  | 0 => g
  | n + 1 =>
    match logs.get? n with
    | some l => l.gas
    | none => 0

theorem prevGas_cons (g : Int) (l : StructLog) (rest : List StructLog) (n : Nat) :
    prevGas g (l :: rest) (n + 1) = prevGas l.gas rest n := by
  cases n with
  | zero => rfl
  | succ m => rfl

theorem parseTraceAux_length (logs : List StructLog) :
    ∀ (i : Nat) (g : Int), (parseTraceAux logs i g).length = logs.length := by
  induction logs with
  | nil => intro i g; rfl
  | cons l rest ih => intro i g; simp [parseTraceAux, ih]

theorem parseTraceAux_get? (logs : List StructLog) :
    ∀ (i : Nat) (g : Int) (n : Nat),
      (parseTraceAux logs i g).get? n =
        (logs.get? n).map fun l => mkTrace (i + n) (prevGas g logs n) l := by
  induction logs with
  | nil => intro i g n; simp [parseTraceAux]
  | cons l rest ih =>
    intro i g n
    cases n with
    | zero => simp [parseTraceAux, prevGas]
    | succ n =>
      have h1 : (parseTraceAux (l :: rest) i g).get? (n + 1) =
          (parseTraceAux rest (i + 1) l.gas).get? n := rfl
      have h2 : ((l :: rest).get? (n + 1)) = rest.get? n := rfl
      rw [h1, h2, ih (i + 1) l.gas n, prevGas_cons]
      have h3 : i + 1 + n = i + (n + 1) := by omega
      rw [h3]

/-- A raw record whose remaining gas is 0 (previous step for the C7
counterexample). -/
def logA : StructLog :=
  { pc := 0, op := "PUSH1", gas := 0, gasCost := some 5, stack := some [],
    memory := none, depth := some 1 }

/-- A raw record following a zero-gas record. -/
def logB : StructLog :=
  { pc := 2, op := "STOP", gas := 7, gasCost := some 3, stack := some [],
    memory := none, depth := some 1 }

/-- A raw record with positive remaining gas. -/
def logC : StructLog :=
  { pc := 0, op := "PUSH1", gas := 10, gasCost := some 3, stack := some [],
    memory := none, depth := some 1 }

/-- The record after `logC`. -/
def logD : StructLog :=
  { pc := 2, op := "STOP", gas := 7, gasCost := some 0, stack := some [],
    memory := none, depth := some 1 }

/-- **C7, counterexample.** The claim says `gasCost[i] = gas[i-1] - gas[i]`
for EVERY `i > 0`; but the source uses the delta only when the previous
remaining gas is positive.  With `gas[0] = 0` and `gas[1] = 7`, step 1's cost
is its own `gasCost` field 3, not the claimed delta `0 - 7 = -7`. -/
theorem c7_counterexample :
    ((parseTrace [logA, logB]).map fun t => t.gasCost) = [5, 3]
    ∧ logA.gas - logB.gas = -7
    ∧ (3 : Int) ≠ -7 := by
  decide

/-- **C7, amended.** `parseTrace` is a 1:1 transform (length, pc, opcode and
dense step indices preserved); for `i > 0` the gas cost is the delta
`gas[i-1] - gas[i]` whenever the previous remaining gas is POSITIVE, and
otherwise — as at step 0 — it is the record's own `gasCost` field when
present, else 0. -/
theorem c7_gas_backfill :
    (∀ logs : List StructLog, (parseTrace logs).length = logs.length)
    ∧ (∀ (logs : List StructLog) (n : Nat) (tr : ExecutionTrace) (log : StructLog),
        (parseTrace logs).get? n = some tr → logs.get? n = some log →
        tr.pc = log.pc ∧ tr.opcode = log.op ∧ tr.step = n)
    ∧ (∀ (logs : List StructLog) (i : Nat) (tr : ExecutionTrace) (prev cur : StructLog),
        (parseTrace logs).get? (i + 1) = some tr → logs.get? i = some prev →
        logs.get? (i + 1) = some cur →
        (0 < prev.gas → tr.gasCost = prev.gas - cur.gas)
        ∧ (¬0 < prev.gas → tr.gasCost = cur.gasCost.getD 0))
    ∧ (∀ (logs : List StructLog) (tr : ExecutionTrace) (log : StructLog),
        (parseTrace logs).get? 0 = some tr → logs.get? 0 = some log →
        tr.gasCost = log.gasCost.getD 0) := by
  refine ⟨fun logs => parseTraceAux_length logs 0 0, ?_, ?_, ?_⟩
  · intro logs n tr log htr hlog
    rw [parseTrace, parseTraceAux_get? logs 0 0 n, hlog] at htr
    cases htr
    exact ⟨rfl, rfl, by simp [mkTrace]⟩
  · intro logs i tr prev cur htr hprev hcur
    rw [parseTrace, parseTraceAux_get? logs 0 0 (i + 1), hcur] at htr
    cases htr
    have hpg : prevGas 0 logs (i + 1) = prev.gas := by
      show (match logs.get? i with
        | some l => l.gas
        | none => 0) = prev.gas
      rw [hprev]
    constructor
    · intro hpos
      simp [mkTrace, hpg, hpos]
    · intro hneg
      simp [mkTrace, hpg, hneg]
  · intro logs tr log htr hlog
    rw [parseTrace, parseTraceAux_get? logs 0 0 0, hlog] at htr
    cases htr
    simp [mkTrace, prevGas]

/-- Witness for `c7_gas_backfill` on a two-record trace with positive gas. -/
theorem c7_gas_backfill_witness :
    (parseTrace [logC, logD]).length = 2
    ∧ ((mkTrace 1 (prevGas 0 [logC, logD] 1) logD).pc = logD.pc
        ∧ (mkTrace 1 (prevGas 0 [logC, logD] 1) logD).opcode = logD.op
        ∧ (mkTrace 1 (prevGas 0 [logC, logD] 1) logD).step = 1)
    ∧ (mkTrace 1 (prevGas 0 [logC, logD] 1) logD).gasCost = logC.gas - logD.gas
    ∧ (mkTrace 0 (prevGas 0 [logC, logD] 0) logC).gasCost = logC.gasCost.getD 0 :=
  ⟨c7_gas_backfill.1 [logC, logD],
   c7_gas_backfill.2.1 [logC, logD] 1 _ logD (by decide) (by decide),
   (c7_gas_backfill.2.2.1 [logC, logD] 0 _ logC logD (by decide) (by decide) (by decide)).1
     (by decide),
   c7_gas_backfill.2.2.2 [logC, logD] _ logC (by decide) (by decide)⟩

/-! ## Storage value decoding (`StorageLayoutParser.decodeValue`) -/

/-- `String.fromCharCode(parseInt(pair, 16))` over the consecutive 2-char
groups of a hex string (an unparseable pair is `NaN`, which
`fromCharCode` maps to the NUL character). -/
def fromCharCodes : List Char → List Char
  | a :: b :: rest => Char.ofNat ((parseIntHex [a, b]).getD 0) :: fromCharCodes rest
  | [a] => [Char.ofNat ((parseIntHex [a]).getD 0)]
  | [] => []

/-- `StorageLayoutParser.decodeValue`: type-directed rendering of one
32-byte value.  Only `BigInt` can throw inside the `try`; the `catch`
returns the raw input, modelled by the `none` branches of `jsBigInt`. -/
def decodeValue (hexValue ty : String) : String :=
  let hex := strip0x hexValue.data
  if hasSubstrL ty.data ("string").data then
    if hex = List.replicate 64 '0' then "\"\""
    else
      match parseIntHex (jsSlice hex 62 64) with
      | some lastByte =>
        if lastByte % 2 = 0 then
          if 0 < lastByte / 2 ∧ lastByte / 2 ≤ 31 then
            ⟨'"' :: (fromCharCodes (hex.take (lastByte / 2 * 2)) ++ ['"'])⟩
          else "string (long)"
        else "string (long)"
      | none => "string (long)"
  else if hasSubstrL ty.data ("address").data then
    ⟨'0' :: 'x' :: jsSlice hex 24 64⟩
  else if hasSubstrL ty.data ("bool").data then
    if hex = List.replicate 64 '0' then "false" else "true"
  else if hasSubstrL ty.data ("uint").data || hasSubstrL ty.data ("int").data then
    match jsBigInt ('0' :: 'x' :: hex) with
    | some v => toString v
    | none => hexValue
  else if hasSubstrL ty.data ("bytes").data then
    ⟨'0' :: 'x' :: hex⟩
  else
    match jsBigInt ('0' :: 'x' :: hex) with
    | some v => toString v
    | none => hexValue

/-- The Solidity short-string storage encoding of `"hi"`: bytes `68 69`, then
zeros, last byte `04` (= 2·length). -/
def strHi : String :=
  ⟨'0' :: 'x' :: ('6' :: '8' :: '6' :: '9' :: (List.replicate 58 '0' ++ ['0', '4']))⟩

/-- **C8.** `decodeValue` of the 32-zero-byte value returns `"false"` for
`bool` and `"0"` for `uint256`; the short-string encoding of `"hi"`
(last byte 4) returns the quoted string. -/
theorem c8_decode_value :
    decodeValue zeros64hex ("bool") = "false"
    ∧ decodeValue zeros64hex ("uint256") = "0"
    ∧ decodeValue strHi ("string") = "\"hi\"" := by
  decide

/-! ## Revert-reason decoding (`TransactionExecutor.executeWithTrace`,
error-classification block)

`errorMessage` starts as the supplied revert reason (or the generic text);
when the transaction failed and a return payload exists, a `4e487b71` prefix
decodes as a Panic through the fixed code table, a `08c379a0` prefix
ABI-decodes the remainder as one string, and an ABI decode failure leaves the
fallback untouched (`catch {}`). -/

/-- The Panic code → message table. -/
def panicReasons (n : Nat) : Option String :=
  match n with
  | 0x01 => some "Assertion failed"
  | 0x11 => some "Arithmetic overflow/underflow (unchecked)"
  | 0x12 => some "Division or modulo by zero"
  | 0x21 => some "Invalid enum value"
  | 0x22 => some "Invalid storage byte array"
  | 0x31 => some "Pop on empty array"
  | 0x32 => some "Array index out of bounds"
  | 0x41 => some "Out of memory"
  | 0x51 => some "Invalid internal function"
  | _ => none

/-- The `Panic(uint256)` selector `0x4e487b71` as hex text. -/
def panicSel : List Char := ['4', 'e', '4', '8', '7', 'b', '7', '1']

/-- The `Error(string)` selector `0x08c379a0` as hex text. -/
def errorSel : List Char := ['0', '8', 'c', '3', '7', '9', 'a', '0']

/-- Hex text → byte list; `none` on a stray character or odd length (the
bytes-like check of the ABI coder). -/
def hexPairsToBytes : List Char → Option (List Nat)
  | [] => some []
  | a :: b :: rest =>
    match hexDigitVal a, hexDigitVal b, hexPairsToBytes rest with
    | some x, some y, some bs => some ((16 * x + y) :: bs)
    | _, _, _ => none
  | [_] => none

/-- A big-endian 32-byte word read at a byte offset, `none` past the end
(the reader's buffer-overrun error). -/
def word32 (bytes : List Nat) (off : Nat) : Option Nat :=
  if off + 32 ≤ bytes.length then
    some (((bytes.drop off).take 32).foldl (fun acc b => acc * 256 + b) 0)
  else none

/-- Modelled from the spec: the external ethers ABI decoder for a single
`string` parameter (`AbiCoder.defaultAbiCoder().decode(['string'], data)` —
the library is not part of this repository).  Head word = byte offset of the
string, the word there = its byte length, followed by that many bytes,
UTF-8-decoded; any malformed hex, out-of-range offset or length throws
(`none`).  UTF-8 decoding is modelled for ASCII payloads; a non-ASCII byte is
treated as a decode failure. -/
def abiDecodeString (data : List Char) : Option String :=
  match hexPairsToBytes data with
  | none => none
  | some bytes =>
    match word32 bytes 0 with
    | none => none
    | some off =>
      match word32 bytes off with
      | none => none
      | some n =>
        if off + 32 + n ≤ bytes.length then
          let strBytes := (bytes.drop (off + 32)).take n
          if strBytes.all fun b => b < 128 then some ⟨strBytes.map Char.ofNat⟩
          else none
        else none

/-- The revert-reason classification of `executeWithTrace` (source lines
147–176), as a function of the supplied plain reason (empty = absent), the
raw return payload (no `0x`, empty = absent) and the failure flag. -/
def decodeErrorMessage (revertReason returnValue : String) (statusFailed : Bool) : String :=
  let base := if revertReason = "" then "Transaction reverted" else revertReason
  if statusFailed ∧ returnValue ≠ "" then
    if prefixOfL panicSel returnValue.data = true then
      match parseIntHex (returnValue.data.drop 8) with
      | some n => "Panic(" ++ toString n ++ "): " ++ (panicReasons n).getD ("Unknown panic")
      | none => "Panic(NaN): " ++ ("Unknown panic")
    else if prefixOfL errorSel returnValue.data = true then
      match abiDecodeString (returnValue.data.drop 8) with
      | some s => "Error: " ++ s
      | none => base
    else base
  else base

theorem prefixOfL_self_append (a b : List Char) : prefixOfL a (a ++ b) = true := by
  induction a with
  | nil => rfl
  | cons c rest ih => simp [prefixOfL, ih]

/-- An absent plain revert reason. -/
def noReason : String := ""

/-- A supplied plain revert reason. -/
def withReason : String := "custom reason"

/-- The payload `0x4e487b71` + 32-byte code `0x11`. -/
def panicPayload : String := ⟨panicSel ++ (List.replicate 62 '0' ++ ['1', '1'])⟩

/-- The payload `0x08c379a0` + the ABI encoding of the string `"bad input"`
(offset word 0x20, length word 9, the 9 bytes, zero padding). -/
def errorPayload : String :=
  ⟨errorSel ++ ((List.replicate 62 '0' ++ ['2', '0']) ++ (List.replicate 63 '0' ++ ['9'])
    ++ ("62616420696e707574").data ++ List.replicate 46 '0')⟩

/-- An `Error(string)`-selected payload whose remainder is not decodable. -/
def badErrorPayload : String := "08c379a0zz"

/-- **C4.** Revert classification: (i) the Panic payload with code `0x11`
yields the fixed table message, which contains "overflow"; (ii) any payload
whose code parses to a value outside the table yields "Unknown panic" (the
code is below 2^53, where the JS float `parseInt` is exact); (iii) the
`Error(string)` payload for `"bad input"` decodes to the error message; and
(iv) a malformed ABI payload never throws — the decoder falls back to the
supplied plain reason, or to the generic "Transaction reverted". -/
theorem c4_revert_reason_decoding :
    (decodeErrorMessage noReason panicPayload true =
        "Panic(17): Arithmetic overflow/underflow (unchecked)"
      ∧ ∃ a b : String, "Panic(17): Arithmetic overflow/underflow (unchecked)" =
          a ++ "overflow" ++ b)
    ∧ (∀ (h : String) (n : Nat), parseIntHex h.data = some n → panicReasons n = none →
        n < 2 ^ 53 →
        decodeErrorMessage noReason (⟨panicSel ++ h.data⟩ : String) true =
          "Panic(" ++ toString n ++ "): " ++ ("Unknown panic"))
    ∧ decodeErrorMessage noReason errorPayload true = "Error: bad input"
    ∧ (∀ rv ret : String, prefixOfL errorSel ret.data = true →
        prefixOfL panicSel ret.data = false →
        abiDecodeString (ret.data.drop 8) = none →
        decodeErrorMessage rv ret true =
          if rv = "" then "Transaction reverted" else rv) := by
  refine ⟨⟨by decide, "Panic(17): Arithmetic ", "/underflow (unchecked)", by decide⟩,
    ?_, by decide, ?_⟩
  · intro h n hp hnone hlt
    have hne : (⟨panicSel ++ h.data⟩ : String) ≠ "" := by
      intro he
      have := congrArg String.data he
      simp [panicSel] at this
    have hpre : prefixOfL panicSel (⟨panicSel ++ h.data⟩ : String).data = true :=
      prefixOfL_self_append panicSel h.data
    have hdrop : (⟨panicSel ++ h.data⟩ : String).data.drop 8 = h.data := rfl
    rw [decodeErrorMessage]
    rw [if_pos ⟨rfl, hne⟩, if_pos hpre, hdrop, hp]
    show "Panic(" ++ toString n ++ "): " ++ (panicReasons n).getD ("Unknown panic") =
      "Panic(" ++ toString n ++ "): " ++ ("Unknown panic")
    rw [hnone, Option.getD_none]
  · intro rv ret h08 h4e hnone
    have hdne : ret.data ≠ [] := by
      intro he
      rw [he] at h08
      simp [prefixOfL, errorSel] at h08
    have hne : ret ≠ "" := by
      intro he
      exact hdne (congrArg String.data he)
    rw [decodeErrorMessage]
    rw [if_pos ⟨rfl, hne⟩, if_neg (by simp [h4e]), if_pos h08, hnone]

/-- Witness for `c4_revert_reason_decoding` on unknown-code and malformed
payloads. -/
theorem c4_revert_reason_decoding_witness :
    decodeErrorMessage noReason (⟨panicSel ++ ("ff").data⟩ : String) true =
        "Panic(" ++ toString 255 ++ "): " ++ ("Unknown panic")
    ∧ decodeErrorMessage withReason badErrorPayload true =
        (if withReason = "" then "Transaction reverted" else withReason) :=
  ⟨c4_revert_reason_decoding.2.1 ("ff") 255 (by decide) (by decide) (by decide),
   c4_revert_reason_decoding.2.2.2 withReason badErrorPayload (by decide) (by decide)
     (by decide)⟩

/-! ## Function context extraction (`StorageLayoutParser.getFunctionContext`)

Backward scan from the target line for the nearest `function`-declaration
line (name captured by the `/function\s+(\w+)/` pattern); forward scan from
that line tracking brace depth per character.  The forward scan's
`inFunction` flag is only set AFTER a line ends with positive depth, so a
depth-zero crossing counts only from the following line on. -/

/-- The enclosing-function record. -/
structure FunctionContext where
  functionName : String
  startLine : Nat
  endLine : Nat
  code : String
  revertLine : Nat
deriving DecidableEq, Repr

/-- `\w` of the regex. -/
def isWordChar (c : Char) : Bool :=
  ('a' ≤ c && c ≤ 'z') || ('A' ≤ c && c ≤ 'Z') || ('0' ≤ c && c ≤ '9') || c = '_'

/-- Try `/function\s+(\w+)/` anchored at the head of `l`: the literal
`function`, then at least one whitespace, then the captured word. -/
def matchFuncAt (l : List Char) : Option (List Char) :=
  if prefixOfL ("function").data l then
    let rest := l.drop 8
    let ws := rest.takeWhile isWSJS
    if ws = [] then none
    else
      let word := (rest.drop ws.length).takeWhile isWordChar
      if word = [] then none else some word
  else none

/-- The first match of `/function\s+(\w+)/` anywhere in the line (the regex
engine scans positions left to right). -/
def findFuncName : List Char → Option String
  | [] => none
  | c :: rest =>
    match matchFuncAt (c :: rest) with
    | some w => some ⟨w⟩
    | none => findFuncName rest

/-- One backward-scan step: the trimmed line must contain `"function "` and
the name pattern must match; otherwise the scan continues upward. -/
def checkFuncLine (lines : List (List Char)) (i : Nat) : Option (Nat × String) :=
  let line := trimL ((lines.get? i).getD [])
  if hasSubstrL line ("function ").data then
    match findFuncName line with
    | some nm => some (i + 1, nm)
    | none => none
  else none

/-- The backward scan from index `i` down to 0. -/
def scanBackAux (lines : List (List Char)) : Nat → Option (Nat × String)
  | 0 => checkFuncLine lines 0
  | i + 1 =>
    match checkFuncLine lines (i + 1) with
    | some r => some r
    | none => scanBackAux lines i

/-- `+1` per `'{'`, `-1` per `'}'`. -/
def braceDelta (c : Char) : Int :=
  if c = '{' then 1 else if c = '}' then -1 else 0

/-- One line of the forward scan: update the depth per character and stop
with a hit as soon as the depth is zero while `inFunction` holds (the flag is
constant within a line).  Returns (hit, final depth). -/
def scanLineChars : List Char → Int → Bool → Bool × Int
  | [], depth, _ => (false, depth)
  | c :: rest, depth, inFn =>
    let d := depth + braceDelta c
    if d = 0 ∧ inFn then (true, d) else scanLineChars rest d inFn

/-- The forward scan over the remaining lines: a hit at line index `i`
reports end line `i + 1`; otherwise `inFunction` latches once a line ends
with positive depth. -/
def findEndAux : List (List Char) → Nat → Int → Bool → Option Nat
  | [], _, _, _ => none
  | line :: rest, i, depth, inFn =>
    let p := scanLineChars line depth inFn
    if p.1 then some (i + 1)
    else findEndAux rest (i + 1) p.2 (inFn || decide (0 < p.2))

/-- End line of the function starting at `startLine`: the forward scan's
answer, or the last line of the file when the scan never hits. -/
def endLineOf (lines : List (List Char)) (startLine : Nat) : Nat :=
  (findEndAux (lines.drop (startLine - 1)) (startLine - 1) 0 false).getD lines.length

/-- `StorageLayoutParser.getFunctionContext`. -/
def getFunctionContext (sourceCode : String) (lineNumber : Nat) : Option FunctionContext :=
  if sourceCode = "" then none
  else
    if lineNumber = 0 then none
    else
      match scanBackAux (splitLinesL sourceCode.data) (lineNumber - 1) with
      | none => none
      | some r =>
        some { functionName := r.2
               startLine := r.1
               endLine := endLineOf (splitLinesL sourceCode.data) r.1
               code := ⟨joinLines (((splitLinesL sourceCode.data).drop (r.1 - 1)).take
                 (endLineOf (splitLinesL sourceCode.data) r.1 - (r.1 - 1)))⟩
               revertLine := lineNumber }

/-! ### Declarative characterisation of the forward scan (claim side)

The claim speaks of "the first line at which the brace depth returns to zero
after having been positive".  The code's notion of "having been positive" is
line-granular: the `inFunction` flag is set only after a line ENDS with
positive depth.  The following definitions state that notion declaratively:
`lineDelta` is a line's net brace contribution, `relDepth` the depth entering
line `k`, `latchB` whether some earlier line ended positive, and `hitsZeroB`
whether the per-character depth reaches zero inside a line. -/

/-- Net brace contribution of a line. -/
def lineDelta (l : List Char) : Int := (l.map braceDelta).sum

/-- Depth entering line `k` of the scanned block, starting from 0 relative
depth. -/
def relDepth (ls : List (List Char)) (k : Nat) : Int := ((ls.take k).map lineDelta).sum

/-- Does the running depth reach zero after some character of the line? -/
def hitsZeroB : List Char → Int → Bool
  | [], _ => false
  | c :: rest, d => (d + braceDelta c == 0) || hitsZeroB rest (d + braceDelta c)

/-- Did some line among the first `k` scanned lines end with positive
depth? -/
def latchB : List (List Char) → Int → Nat → Bool
  | _, _, 0 => false
  | [], _, _ + 1 => false
  | l :: ls, d, k + 1 => decide (0 < d + lineDelta l) || latchB ls (d + lineDelta l) k

/-- Line `k` of the scanned block is a detection line: an earlier line ended
positive (or the flag was latched on entry) and the per-character depth
reaches zero inside line `k`. -/
def auxHit (ls : List (List Char)) (d : Int) (fn : Bool) (k : Nat) : Bool :=
  (fn || latchB ls d k) && hitsZeroB ((ls.get? k).getD []) (d + relDepth ls k)

theorem relDepth_cons (l : List Char) (ls : List (List Char)) (k : Nat) :
    relDepth (l :: ls) (k + 1) = lineDelta l + relDepth ls k := by
  simp [relDepth]

theorem scanLineChars_spec (l : List Char) : ∀ (d : Int) (fn : Bool),
    (scanLineChars l d fn).1 = (fn && hitsZeroB l d)
    ∧ ((fn && hitsZeroB l d) = false → (scanLineChars l d fn).2 = d + lineDelta l) := by
  induction l with
  | nil =>
    intro d fn
    refine ⟨by simp [scanLineChars, hitsZeroB], fun _ => ?_⟩
    simp [scanLineChars, lineDelta]
  | cons c rest ih =>
    intro d fn
    cases fn with
    | false =>
      have hsc : scanLineChars (c :: rest) d false =
          scanLineChars rest (d + braceDelta c) false := by
        simp only [scanLineChars]
        rw [if_neg (by simp)]
      constructor
      · rw [hsc, (ih (d + braceDelta c) false).1]
        simp
      · intro _
        rw [hsc, (ih (d + braceDelta c) false).2 (by simp)]
        simp only [lineDelta, List.map_cons, List.sum_cons]
        omega
    | true =>
      by_cases h0 : d + braceDelta c = 0
      · have hsc : scanLineChars (c :: rest) d true = (true, d + braceDelta c) := by
          simp only [scanLineChars]
          rw [if_pos ⟨h0, by trivial⟩]
        constructor
        · rw [hsc]
          simp [hitsZeroB, h0]
        · intro hF
          rw [hitsZeroB] at hF
          simp [h0] at hF
      · have hsc : scanLineChars (c :: rest) d true =
            scanLineChars rest (d + braceDelta c) true := by
          simp only [scanLineChars]
          rw [if_neg (fun hand => h0 hand.1)]
        constructor
        · rw [hsc, (ih (d + braceDelta c) true).1, hitsZeroB]
          simp [h0]
        · intro hF
          rw [hitsZeroB] at hF
          simp only [Bool.true_and, Bool.or_eq_false_iff] at hF
          rw [hsc, (ih (d + braceDelta c) true).2 (by simp [hF.2])]
          simp only [lineDelta, List.map_cons, List.sum_cons]
          omega

theorem auxHit_zero_cons (l : List Char) (ls : List (List Char)) (d : Int) (fn : Bool) :
    auxHit (l :: ls) d fn 0 = (fn && hitsZeroB l d) := by
  simp [auxHit, latchB, relDepth]

theorem auxHit_zero_false (ls : List (List Char)) (d : Int) :
    auxHit ls d false 0 = false := by
  simp [auxHit, latchB]

theorem auxHit_succ (l : List Char) (ls : List (List Char)) (d : Int) (fn : Bool) (k : Nat) :
    auxHit (l :: ls) d fn (k + 1)
      = auxHit ls (d + lineDelta l) (fn || decide (0 < d + lineDelta l)) k := by
  simp [auxHit, latchB, relDepth_cons, Bool.or_assoc, Int.add_assoc]

theorem findEndAux_spec (ls : List (List Char)) : ∀ (i : Nat) (d : Int) (fn : Bool),
    (findEndAux ls i d fn = none → ∀ k, k < ls.length → auxHit ls d fn k = false)
    ∧ (∀ e, findEndAux ls i d fn = some e →
        ∃ k, k < ls.length ∧ e = i + k + 1 ∧ auxHit ls d fn k = true
          ∧ ∀ k', k' < k → auxHit ls d fn k' = false) := by
  induction ls with
  | nil =>
    intro i d fn
    constructor
    · intro _ k hk
      simp at hk
    · intro e he
      simp [findEndAux] at he
  | cons l ls ih =>
    intro i d fn
    have hs := scanLineChars_spec l d fn
    by_cases hhit : (scanLineChars l d fn).1 = true
    · have hfe : findEndAux (l :: ls) i d fn = some (i + 1) := by
        simp only [findEndAux]
        rw [if_pos hhit]
      constructor
      · intro hn
        rw [hfe] at hn
        exact absurd hn (by simp)
      · intro e he
        rw [hfe] at he
        have he' : i + 1 = e := Option.some_injective _ he
        refine ⟨0, by simp, by omega, ?_, fun k' hk' => absurd hk' (by omega)⟩
        rw [auxHit_zero_cons, ← hs.1]
        exact hhit
    · have hhf : (scanLineChars l d fn).1 = false := by simpa using hhit
      have hand : (fn && hitsZeroB l d) = false := hs.1.symm.trans hhf
      have h2 : (scanLineChars l d fn).2 = d + lineDelta l := hs.2 hand
      have hfe : findEndAux (l :: ls) i d fn =
          findEndAux ls (i + 1) (d + lineDelta l) (fn || decide (0 < d + lineDelta l)) := by
        simp only [findEndAux]
        rw [if_neg (by simp [hhf]), h2]
      constructor
      · intro hn k hk
        rw [hfe] at hn
        have hall := (ih (i + 1) (d + lineDelta l) (fn || decide (0 < d + lineDelta l))).1 hn
        cases k with
        | zero =>
          rw [auxHit_zero_cons]
          exact hand
        | succ k =>
          rw [auxHit_succ]
          exact hall k (by simpa using hk)
      · intro e he
        rw [hfe] at he
        obtain ⟨k, hk, he', hh, hmin⟩ :=
          (ih (i + 1) (d + lineDelta l) (fn || decide (0 < d + lineDelta l))).2 e he
        refine ⟨k + 1, by simpa using hk, by omega, ?_, ?_⟩
        · rw [auxHit_succ]
          exact hh
        · intro k' hk'
          cases k' with
          | zero =>
            rw [auxHit_zero_cons]
            exact hand
          | succ k' =>
            rw [auxHit_succ]
            exact hmin k' (by omega)

theorem checkFuncLine_fst (lines : List (List Char)) (i : Nat) (r : Nat × String)
    (h : checkFuncLine lines i = some r) : r.1 = i + 1 := by
  rw [checkFuncLine] at h
  by_cases hc : hasSubstrL (trimL ((lines.get? i).getD [])) (("function ").data) = true
  · rw [if_pos hc] at h
    cases hm : findFuncName (trimL ((lines.get? i).getD [])) with
    | none =>
      rw [hm] at h
      exact absurd h (by simp)
    | some nm =>
      rw [hm] at h
      have := Option.some_injective _ h
      rw [← this]
  · rw [if_neg hc] at h
    exact absurd h (by simp)

theorem scanBackAux_pos (lines : List (List Char)) : ∀ (n : Nat) (r : Nat × String),
    scanBackAux lines n = some r → 1 ≤ r.1 := by
  intro n
  induction n with
  | zero =>
    intro r hr
    have := checkFuncLine_fst lines 0 r hr
    omega
  | succ n ih =>
    intro r hr
    rw [scanBackAux] at hr
    cases hcl : checkFuncLine lines (n + 1) with
    | some r' =>
      rw [hcl] at hr
      have h1 := checkFuncLine_fst lines (n + 1) r' hcl
      have heq : r' = r := Option.some_injective _ hr
      subst heq
      omega
    | none =>
      rw [hcl] at hr
      exact ih r hr

/-- A source whose first function opens and closes its braces on one line,
followed by another braced function and a trailing line. -/
def srcC9 : String := "function foo() \x7b x; \x7d\nfunction bar() \x7b\n\x7d\ntail"

/-- A plain multi-line function source. -/
def srcFoo : String := "function foo() \x7b\n  uint x = 1;\n  require(x > 0);\n\x7d"

/-- **C9, counterexample.** The claim says that when the function's opening
and closing braces lie on the same line, `getFunctionContext` returns the
last line of the file as the end line.  In `srcC9` the function `foo` on
line 1 is brace-balanced on its own line, the file has 4 lines — but the
returned end line is 3, the closing line of the NEXT function `bar` (the
`inFunction` flag is not yet set while the declaration line itself is
scanned, so the zero crossing on line 1 goes undetected and the scan latches
onto the following block instead of falling back to end-of-file). -/
theorem c9_counterexample :
    ((getFunctionContext srcC9 1).map fun fc => (fc.functionName, fc.startLine, fc.endLine))
        = some ("foo", 1, 3)
    ∧ (splitLinesL srcC9.data).length = 4
    ∧ ((getFunctionContext srcC9 1).map fun fc => fc.endLine)
        ≠ some ((splitLinesL srcC9.data).length) := by
  decide

/-- **C9, amended.** For every source and target with an enclosing
declaration found, the returned `endLine` is characterised by the
line-latched zero crossing: either the forward scan never detects a line —
no scanned line has a per-character zero crossing AFTER some strictly earlier
scanned line ended with positive depth — and `endLine` falls back to the last
line of the file; or `endLine = startLine + k` for the FIRST detection line
`k ≥ 1`.  In particular the start line itself (`k = 0`) is never the
detection line, so a function brace-balanced on its own declaration line
either adopts a later block's rebalance line or takes the end-of-file
fallback. -/
theorem c9_end_line (src : String) (target : Nat) (fc : FunctionContext)
    (h : getFunctionContext src target = some fc) :
    (findEndAux ((splitLinesL src.data).drop (fc.startLine - 1)) (fc.startLine - 1) 0 false
          = none
        ∧ fc.endLine = (splitLinesL src.data).length
        ∧ ∀ k, k < ((splitLinesL src.data).drop (fc.startLine - 1)).length →
            auxHit ((splitLinesL src.data).drop (fc.startLine - 1)) 0 false k = false)
    ∨ (∃ k, k < ((splitLinesL src.data).drop (fc.startLine - 1)).length ∧ 1 ≤ k
        ∧ fc.endLine = fc.startLine + k
        ∧ auxHit ((splitLinesL src.data).drop (fc.startLine - 1)) 0 false k = true
        ∧ ∀ k', k' < k →
            auxHit ((splitLinesL src.data).drop (fc.startLine - 1)) 0 false k' = false) := by
  rw [getFunctionContext] at h
  by_cases hsrc : src = ""
  · rw [if_pos hsrc] at h
    exact absurd h (by simp)
  rw [if_neg hsrc] at h
  by_cases htgt : target = 0
  · rw [if_pos htgt] at h
    exact absurd h (by simp)
  rw [if_neg htgt] at h
  cases hsb : scanBackAux (splitLinesL src.data) (target - 1) with
  | none =>
    rw [hsb] at h
    exact absurd h (by simp)
  | some r =>
    rw [hsb] at h
    have hfc := (Option.some_injective _ h).symm
    have hpos : 1 ≤ r.1 := scanBackAux_pos _ _ _ hsb
    have hstart : fc.startLine = r.1 := by rw [hfc]
    have hend : fc.endLine = endLineOf (splitLinesL src.data) r.1 := by rw [hfc]
    rw [hstart, hend, endLineOf]
    cases hfe : findEndAux ((splitLinesL src.data).drop (r.1 - 1)) (r.1 - 1) 0 false with
    | none =>
      exact Or.inl ⟨rfl, rfl,
        (findEndAux_spec ((splitLinesL src.data).drop (r.1 - 1)) (r.1 - 1) 0 false).1 hfe⟩
    | some e =>
      obtain ⟨k, hk, he, hh, hmin⟩ :=
        (findEndAux_spec ((splitLinesL src.data).drop (r.1 - 1)) (r.1 - 1) 0 false).2 e hfe
      have hk1 : 1 ≤ k := by
        rcases Nat.eq_zero_or_pos k with rfl | h1
        · rw [auxHit_zero_false] at hh
          exact absurd hh (by simp)
        · exact h1
      exact Or.inr ⟨k, hk, hk1, by simp [he]; omega, hh, hmin⟩

/-- The context `getFunctionContext` computes for the `require` line of
`srcFoo`. -/
def fcFoo : FunctionContext :=
  { functionName := "foo", startLine := 1, endLine := 4,
    code := "function foo() \x7b\n  uint x = 1;\n  require(x > 0);\n\x7d", revertLine := 3 }

/-- Witness for `c9_end_line` on a plain multi-line function. -/
theorem c9_end_line_witness :
    (findEndAux ((splitLinesL srcFoo.data).drop (fcFoo.startLine - 1)) (fcFoo.startLine - 1)
          0 false = none
        ∧ fcFoo.endLine = (splitLinesL srcFoo.data).length
        ∧ ∀ k, k < ((splitLinesL srcFoo.data).drop (fcFoo.startLine - 1)).length →
            auxHit ((splitLinesL srcFoo.data).drop (fcFoo.startLine - 1)) 0 false k = false)
    ∨ (∃ k, k < ((splitLinesL srcFoo.data).drop (fcFoo.startLine - 1)).length ∧ 1 ≤ k
        ∧ fcFoo.endLine = fcFoo.startLine + k
        ∧ auxHit ((splitLinesL srcFoo.data).drop (fcFoo.startLine - 1)) 0 false k = true
        ∧ ∀ k', k' < k →
            auxHit ((splitLinesL srcFoo.data).drop (fcFoo.startLine - 1)) 0 false k' = false) :=
  c9_end_line srcFoo 3 fcFoo (by decide)

end Dogtrace
